import Mathlib

/-!
Verification of the tabular cleaning pipeline and the chat code-execution
bridge of the Excel Auto-Analyst application (src/app.py).

The embedding follows the source:
* a pandas DataFrame becomes `Table` (ordered column names, column dtypes,
  ordinally aligned rows of cells);
* `num_cols` / `cat_cols` embed `df.select_dtypes(include=['number'])` /
  `select_dtypes(include=['object'])` (app.py lines 51-52);
* `clean` embeds the auto-cleaning block (lines 72-78): `drop_duplicates`
  followed by `fillna(0)` on numeric columns and `fillna("Unknown")` on
  object columns, where pandas duplicate detection treats NaN cells as
  equal (here `Value.na` compares equal to itself structurally);
* `load_data` (lines 33-42) dispatches on the filename suffix and returns
  `none` when the dispatched parser raises; the parser outcomes of an
  uploaded byte stream are carried as oracle fields of `UploadedFile`;
* the chat block (lines 245-311) becomes `chatStep`: the generated code is
  a list of `Stmt` (writes to captured stdout, a raised runtime error,
  binding the designated chart variable `fig`, or an in-place mutation of
  the `df` object), executed by `runStmts`; `local_scope`/`lookupName`
  embed `exec(code, {}, local_scope)` name resolution (lines 284, 289);
* `extract_code` over `List Char` embeds the extraction branches
  (lines 277-281), with `pySplit`, `pyContains`, `pyStrip` embedding
  Python `str.split`, `in` and `str.strip`.
-/

/-- Dtype families relevant to `select_dtypes` in app.py lines 51-52:
`number` (matched by `include=['number']`), `object` (matched by
`include=['object']`), and `other` for every remaining pandas dtype
(datetime64, bool, ...), which both calls exclude. -/
inductive Dtype where
  | number
  | object
  | other
deriving DecidableEq

/-- A cell of the table: missing (NaN/None), a numeric value, a text value,
a boolean, or a time stamp (payload of an `other`-dtype column). pandas
`drop_duplicates` treats NaN cells as equal when comparing rows, which
matches structural equality of `Value.na`. -/
inductive Value where
  | na
  | num (n : Int)
  | str (s : String)
  | boolv (b : Bool)
  | time (t : Int)
deriving DecidableEq

/-- A DataFrame: ordered column names, their dtypes, and rows of cells
ordinally aligned with the columns. -/
structure Table where
  names : List String
  dtypes : List Dtype
  rows : List (List Value)
deriving DecidableEq

/-- Shape invariant of a DataFrame: one dtype per column and rectangular
rows. -/
def WF (T : Table) : Prop :=
  T.names.length = T.dtypes.length ∧ ∀ row ∈ T.rows, row.length = T.dtypes.length

instance : DecidablePred WF := fun T => by
  unfold WF; infer_instance

/-- `num_cols = df.select_dtypes(include=['number']).columns.tolist()`
(app.py line 51). -/
def num_cols (T : Table) : List String :=
  (T.names.zip T.dtypes).filterMap (fun p => if p.2 = Dtype.number then some p.1 else none)

/-- `cat_cols = df.select_dtypes(include=['object']).columns.tolist()`
(app.py line 52). -/
def cat_cols (T : Table) : List String :=
  (T.names.zip T.dtypes).filterMap (fun p => if p.2 = Dtype.object then some p.1 else none)

/-- The fill applied to one cell by the auto-cleaning block (lines 76-78):
missing numeric cells become `0`, missing object cells become `"Unknown"`,
cells of every other dtype and non-missing cells are unchanged. -/
def cellClean (dt : Dtype) (v : Value) : Value :=
  match v with
  | Value.na =>
    match dt with
    | Dtype.number => Value.num 0
    | Dtype.object => Value.str "Unknown"
    | Dtype.other => Value.na
  | v => v

/-- `df_cleaned[num_cols] = df_cleaned[num_cols].fillna(0)` and
`df_cleaned[cat_cols] = df_cleaned[cat_cols].fillna("Unknown")`
(lines 76-78), applied cell-wise to one row. -/
def fillRow (dts : List Dtype) (row : List Value) : List Value :=
  List.zipWith cellClean dts row

/-- A row has no missing cell in any column classified numeric or
categorical (cells are paired with their column dtypes positionally). -/
def NoMissingRow (dts : List Dtype) (row : List Value) : Prop :=
  ∀ p ∈ dts.zip row, (p.1 = Dtype.number ∨ p.1 = Dtype.object) → p.2 ≠ Value.na

instance (dts : List Dtype) (row : List Value) : Decidable (NoMissingRow dts row) := by
  unfold NoMissingRow; infer_instance

/-- Every row of the table satisfies `NoMissingRow`. -/
def NoMissingTable (T : Table) : Prop :=
  ∀ row ∈ T.rows, NoMissingRow T.dtypes row

instance (T : Table) : Decidable (NoMissingTable T) := by
  unfold NoMissingTable; infer_instance

/-- Accumulator pass of `drop_duplicates()`: keep a row iff it has not been
seen earlier; first occurrences survive in order (pandas default
`keep='first'`). -/
def dedupAux {α : Type} [DecidableEq α] (seen : List α) : List α → List α
  | [] => []
  | r :: rest => if r ∈ seen then dedupAux seen rest else r :: dedupAux (r :: seen) rest

/-- `df_cleaned.drop_duplicates()` (line 74) on the row list. -/
def dropDuplicates (rows : List (List Value)) : List (List Value) :=
  dedupAux [] rows

/-- The auto-cleaning block (lines 72-78): copy, `drop_duplicates()`, then
fill missing numeric cells with `0` and missing object cells with
`"Unknown"`. Column names and dtypes are unchanged. -/
def clean (T : Table) : Table :=
  { T with rows := (dropDuplicates T.rows).map (fillRow T.dtypes) }

/-- Chat roles stored in `st.session_state.messages`. -/
inductive Role where
  | user
  | assistant
deriving DecidableEq

/-- One conversation-log entry (a `{"role": ..., "content": ...}` dict). -/
structure Msg where
  role : Role
  content : String
deriving DecidableEq

/-- The session state used by the claims: the active table
`st.session_state['df_cleaned']` (absent before the home page ran) and the
conversation log `st.session_state.messages`. -/
structure SessionState where
  df_cleaned : Option Table
  messages : List Msg
deriving DecidableEq

/-- An uploaded byte stream with its filename. Parsing is done by pandas,
outside this development, so the outcome of `pd.read_csv` and of
`pd.read_excel` on the stream are carried as oracle fields. -/
structure UploadedFile where
  name : String
  asCsv : Except String Table
  asExcel : Except String Table

/-- Python `str.endswith`, evaluated on the characters of the strings. -/
def pyEndsWith (s suffix : String) : Bool :=
  suffix.data.isSuffixOf s.data

/-- The sidebar uploader accepts only these suffixes
(`st.file_uploader(..., type=['csv', 'xlsx'])`, line 25). -/
def extensionAccepted (n : String) : Bool :=
  pyEndsWith n ".csv" || pyEndsWith n ".xlsx"

/-- The dispatch inside `load_data` (lines 36-39): `.csv` goes to
`pd.read_csv`, every other name goes to `pd.read_excel`. -/
def dispatchParse (f : UploadedFile) : Except String Table :=
  if pyEndsWith f.name ".csv" then f.asCsv else f.asExcel

/-- `load_data` (lines 33-42): on a parser exception the error is shown
(`st.error`, the LoadError of the spec) and `None` is returned. -/
def load_data (f : UploadedFile) : Option Table :=
  match dispatchParse f with
  | Except.ok t => some t
  | Except.error _ => none

/-- The home page's write of the active table (lines 71-96): with cleaning
enabled the session stores `clean df`, otherwise the raw `df`; either way
the reference is replaced wholesale. -/
def homeStep (s : SessionState) (df : Table) (cleanMode : Bool) : SessionState :=
  if cleanMode then { s with df_cleaned := some (clean df) }
  else { s with df_cleaned := some df }

/-- One home-page pass after an upload (lines 45-96): `df = load_data(...)`
followed by `if df is not None:`; when loading failed nothing else runs and
the session is untouched. -/
def handleUpload (s : SessionState) (f : UploadedFile) (cleanMode : Bool) : SessionState :=
  match load_data f with
  | none => s
  | some df => homeStep s df cleanMode

/-- The uploader gate (line 25): a file whose name has an unaccepted suffix
never reaches `load_data`; the session is untouched and no error is
raised. -/
def uploadGate (s : SessionState) (f : UploadedFile) (cleanMode : Bool) : SessionState :=
  if extensionAccepted f.name then handleUpload s f cleanMode else s

/-- One step of the generated code run by `exec` (line 289): a write to the
captured standard output stream (a `print` call, its newline folded into
the payload), a raised runtime error, a binding of the designated chart
variable `fig`, or an in-place mutation of the `df` object (for example
`df.drop(..., inplace=True)`). -/
inductive Stmt where
  | print (s : String)
  | raiseError (msg : String)
  | assignFig
  | mutateDf (f : Table → Table)

/-- Whether a statement mutates the `df` object in place. -/
def Stmt.mutates : Stmt → Bool
  | Stmt.mutateDf _ => true
  | _ => false

/-- Outcome of `exec(code, {}, local_scope)` under
`redirect_stdout(output_buffer)` (lines 285-289): the buffer contents when
execution stopped, the final state of the `df` object (aliased with
`st.session_state['df_cleaned']`), whether `"fig" in local_scope` holds
afterwards, and the raised error if any. -/
structure ExecResult where
  buffer : String
  dfFinal : Table
  figSet : Bool
  error : Option String

/-- Sequential execution of the generated code: statements run in order,
stdout writes accumulate in the buffer, and a raised error stops execution
keeping the buffer and object state reached so far. -/
def runStmts : List Stmt → Table → String → Bool → ExecResult
  | [], df, buf, fig => ⟨buf, df, fig, none⟩
  | Stmt.print s :: rest, df, buf, fig => runStmts rest df (buf ++ s) fig
  | Stmt.raiseError m :: _, df, buf, figFlag => ⟨buf, df, figFlag, some m⟩
  | Stmt.assignFig :: rest, df, buf, _ => runStmts rest df buf true
  | Stmt.mutateDf f :: rest, df, buf, fig => runStmts rest (f df) buf fig

/-- Outcome of the collaborator call `client.chat.completions.create`
(line 269): a transport/API exception, or a reply whose extracted code
behaves as the given statement list. -/
inductive CollabOutcome where
  | serviceError (e : String)
  | reply (code : List Stmt)

/-- What one chat pass produces: the new session state, the text shown via
`st.markdown(output_text)` (if any), whether a chart was rendered, and the
`st.error` notice (if any). -/
structure ChatResult where
  state : SessionState
  shownText : Option String
  shownChart : Bool
  shownError : Option String

/-- The chat handling pass (lines 245-314). The user question is appended
first (line 247). A collaborator exception propagates to the outer handler
(line 313) which only shows an error. Otherwise the extracted code runs
under `exec` with captured stdout; on a runtime error the inner handler
(line 310) only shows `Code Execution Error: ...` - the captured buffer is
never read on that path. On success the captured text is shown and
appended when non-empty, and `(Chart Generated)` is appended when `fig`
was bound (lines 291-305). The `df` object bound into `local_scope` is the
object stored in `st.session_state['df_cleaned']`, so its final state is
the new active table on every path where `exec` ran. -/
def chatStep (s : SessionState) (q : String) (out : CollabOutcome) : ChatResult :=
  match s.df_cleaned with
  | none => ⟨s, none, false, none⟩
  | some df =>
    match out with
    | CollabOutcome.serviceError e =>
      ⟨⟨some df, s.messages ++ [⟨Role.user, q⟩]⟩, none, false,
        some ("Error initializing AI: " ++ e)⟩
    | CollabOutcome.reply code =>
      match runStmts code df "" false with
      | ⟨_, dfF, _, some e⟩ =>
        ⟨⟨some dfF, s.messages ++ [⟨Role.user, q⟩]⟩, none, false,
          some ("Code Execution Error: " ++ e)⟩
      | ⟨buf, dfF, fig, none⟩ =>
        ⟨⟨some dfF, s.messages ++ [⟨Role.user, q⟩]
            ++ (if buf = "" then [] else [⟨Role.assistant, buf⟩])
            ++ (if fig then [⟨Role.assistant, "(Chart Generated)"⟩] else [])⟩,
          (if buf = "" then none else some buf), fig, none⟩

/-- `df_active[metric_col].sum()` over a numeric column skips missing
cells, like pandas. -/
def naSum (vs : List Value) : Int :=
  vs.foldl (fun acc v => match v with | Value.num k => acc + k | _ => acc) 0

/-- The cells of column `j`. -/
def colValues (T : Table) (j : Nat) : List Value :=
  T.rows.map (fun r => r.getD j Value.na)

/-- The dashboard page (lines 99-143): reads the active table and computes
the KPI total; it contains no write to the session state. -/
def dashboardStep (s : SessionState) (metric : String) : SessionState × Option Int :=
  match s.df_cleaned with
  | none => (s, none)
  | some df =>
    match List.findIdx? (fun m => m == metric) df.names with
    | none => (s, none)
    | some j => (s, some (naSum (colValues df j)))

/-- `df_active[y_axis].min()` skips missing cells, like pandas; `none` on a
column without numeric cells. -/
def naMin (vs : List Value) : Option Int :=
  vs.foldl (fun acc v =>
    match v with
    | Value.num k => match acc with | none => some k | some m => some (min m k)
    | _ => acc) none

/-- `df_active[y_axis].max()` skips missing cells, like pandas; `none` on a
column without numeric cells. -/
def naMax (vs : List Value) : Option Int :=
  vs.foldl (fun acc v =>
    match v with
    | Value.num k => match acc with | none => some k | some m => some (max m k)
    | _ => acc) none

/-- Rank separating the cell kinds, used only to make `valueLe` total on
cross-kind comparisons, which do not occur on a homogeneous pandas
column. Missing cells rank last (pandas `na_position='last'`). -/
def valueKindRank : Value → Nat
  | Value.num _ => 0
  | Value.str _ => 1
  | Value.boolv _ => 2
  | Value.time _ => 3
  | Value.na => 4

/-- Ordering on cells used by `sort_values` and by the sorted key output
of `groupby(...).sum()`. On a homogeneous column it matches pandas:
numbers and time stamps by value, text lexicographically, `False < True`,
missing cells last. -/
def valueLe (a b : Value) : Bool :=
  match a, b with
  | Value.num m, Value.num n => decide (m ≤ n)
  | Value.str u, Value.str v => decide (u < v) || decide (u = v)
  | Value.boolv x, Value.boolv y => !x || y
  | Value.time u, Value.time v => decide (u ≤ v)
  | _, _ => decide (valueKindRank a ≤ valueKindRank b)

/-- Insert into a sorted list, keeping earlier elements first among
ties. -/
def insertBy {α : Type} (le : α → α → Bool) (a : α) : List α → List α
  | [] => [a]
  | b :: rest => if le a b then a :: b :: rest else b :: insertBy le a rest

/-- Insertion sort. The source delegates sorting to pandas
(`sort_values`, default quicksort, ties in unspecified order); this is the
stable determinization of that sort. -/
def sortBy {α : Type} (le : α → α → Bool) : List α → List α
  | [] => []
  | a :: rest => insertBy le a (sortBy le rest)

/-- `df_active.sort_values(by=x_axis)` (lines 170, 186-187): rows ordered
by the cell in column `xj`. -/
def sortRowsBy (xj : Nat) (rows : List (List Value)) : List (List Value) :=
  sortBy (fun r s => valueLe (r.getD xj Value.na) (s.getD xj Value.na)) rows

/-- `df_active.groupby(x_axis)[y_axis].sum().reset_index()` (line 167):
one `(key, sum)` pair per distinct key of column `xj`, keys in sorted
order (pandas `groupby` default `sort=True`), the sum taken over the
numeric cells of column `yj` in the key's rows. -/
def groupbySum (T : Table) (xj yj : Nat) : List (Value × Int) :=
  (sortBy valueLe (dedupAux [] (T.rows.map (fun r => r.getD xj Value.na)))).map
    (fun k => (k, naSum ((T.rows.filter
      (fun r => decide (r.getD xj Value.na = k))).map (fun r => r.getD yj Value.na))))

/-- Python `>` between two cells of a numeric column: false when either
side is missing (NaN comparisons are false), matching lines 188-193. -/
def numGt (a b : Value) : Bool :=
  match a, b with
  | Value.num m, Value.num n => decide (n < m)
  | _, _ => false

/-- The trend of the insight block (lines 184-195): compare the first and
last `y` cell after sorting by the `x` column; on an empty table `iloc[0]`
raises and the handler yields `fluctuating`. -/
def trendLabel (T : Table) (xj yj : Nat) : String :=
  match sortRowsBy xj T.rows with
  | [] => "fluctuating"
  | r :: rest =>
    if numGt ((rest.getLastD r).getD yj Value.na) (r.getD yj Value.na) then
      "increasing 📈"
    else if numGt (r.getD yj Value.na) ((rest.getLastD r).getD yj Value.na) then
      "decreasing 📉"
    else "stable ➖"

/-- The chart type selected in the custom-analysis page (line 159). -/
inductive ChartType where
  | bar
  | line
  | scatter

/-- The data handed to the charting library by the custom-analysis page:
grouped sums for a bar chart, sorted rows for a line chart, the raw rows
for a scatter plot (lines 166-173). -/
inductive ChartData where
  | bar (grouped : List (Value × Int))
  | line (sorted : List (List Value))
  | scatter (rows : List (List Value))

/-- Everything the custom-analysis page renders: the chart data and the
min/max/trend narrative values (lines 162-202). -/
structure CustomView where
  chart : ChartData
  minVal : Option Int
  maxVal : Option Int
  trend : String

/-- The custom-analysis page (lines 146-205): reads the active table,
derives the chart data for the selected chart type and the narrative
insight values. Every assignment in that block targets a local variable
(`df_grouped`, `df_sorted`, `fig`, `max_val`, `min_val`, `trend`,
`insight`); the session state is only read, never written. -/
def customChartStep (s : SessionState) (x y : String) (ct : ChartType) :
    SessionState × Option CustomView :=
  match s.df_cleaned with
  | none => (s, none)
  | some df =>
    match List.findIdx? (fun m => m == x) df.names,
          List.findIdx? (fun m => m == y) df.names with
    | some xj, some yj =>
      (s, some
        { chart :=
            match ct with
            | ChartType.bar => ChartData.bar (groupbySum df xj yj)
            | ChartType.line => ChartData.line (sortRowsBy xj df.rows)
            | ChartType.scatter => ChartData.scatter df.rows
          minVal := naMin (colValues df yj)
          maxVal := naMax (colValues df yj)
          trend := trendLabel df xj yj })
    | _, _ => (s, none)

/-- Values reachable by name from the generated code: the active table, a
library namespace, or a chart object. -/
inductive PyVal where
  | table (t : Table)
  | moduleNS (m : String)
  | figure
deriving DecidableEq

/-- `local_scope = {"df": df_active, "pd": pd, "px": px}` (line 284). -/
def local_scope (df : Table) : List (String × PyVal) :=
  [("df", PyVal.table df), ("pd", PyVal.moduleNS "pandas"),
   ("px", PyVal.moduleNS "plotly.express")]

/-- The globals dict passed to `exec` (line 289) is the empty dict. -/
def exec_globals : List (String × PyVal) := []

/-- Name resolution of `exec(code, {}, local_scope)`: locals first, then
the (empty) globals. -/
def lookupName (df : Table) (x : String) : Option PyVal :=
  match (local_scope df).lookup x with
  | some v => some v
  | none => exec_globals.lookup x

/-- The names bound in the enclosing module and handler scope of app.py at
the moment `exec` runs; none of them is passed into the execution scope
except through the three `local_scope` entries. -/
def enclosing_scope_names : List String :=
  ["st", "pd", "px", "os", "Groq", "plt", "sys", "StringIO", "redirect_stdout",
   "uploaded_file", "page", "load_data", "df", "num_cols", "cat_cols",
   "clean_mode", "df_cleaned", "csv", "df_active", "metric_col", "groq_key",
   "client", "prompt", "columns", "head_data", "system_prompt", "response",
   "raw_content", "code", "local_scope", "output_buffer", "output_text"]

/-- Python whitespace stripped by `str.strip()` with no arguments. -/
def isPySpace (c : Char) : Bool :=
  c = ' ' || c = '\t' || c = '\n' || c = '\r' || c = '\x0b' || c = '\x0c'

/-- `str.strip()`: drop whitespace from both ends. -/
def pyStrip (s : List Char) : List Char :=
  ((s.dropWhile isPySpace).reverse.dropWhile isPySpace).reverse

/-- Index of the first occurrence of `sep` in `s` (leftmost match), as used
by Python `in` and `str.split`. -/
def firstOcc (sep : List Char) : List Char → Option Nat
  | [] => if sep.isPrefixOf ([] : List Char) then some 0 else none
  | c :: rest =>
    if sep.isPrefixOf (c :: rest) then some 0
    else (firstOcc sep rest).map (· + 1)

/-- Fuelled worker for `str.split(sep)`: cut at the leftmost occurrence of
`sep`, consume it, continue on the remainder (non-overlapping, left to
right). A fuel of `s.length` always suffices for non-empty `sep`. -/
def pySplitFuel (sep : List Char) : Nat → List Char → List (List Char)
  | 0, s => [s]
  | fuel + 1, s =>
    match firstOcc sep s with
    | none => [s]
    | some i => s.take i :: pySplitFuel sep fuel (s.drop (i + sep.length))

/-- Python `str.split(sep)` for non-empty `sep`. -/
def pySplit (sep s : List Char) : List (List Char) :=
  pySplitFuel sep s.length s

/-- Python `sep in s`. -/
def pyContains (sep s : List Char) : Bool :=
  (firstOcc sep s).isSome

/-- The tagged fence marker of line 278. -/
def pythonTag : List Char := "```python".data

/-- The bare fence marker of lines 279-281. -/
def fence : List Char := "```".data

/-- The extraction branches of lines 277-281:
`code = raw_content`; if `"```python" in raw_content` then
`code = raw_content.split("```python")[1].split("```")[0].strip()`;
elif `"```" in raw_content` then
`code = raw_content.split("```")[1].split("```")[0].strip()`.
The guarded index `[1]` always exists, so `getD` is faithful. -/
def extract_code (raw : List Char) : List Char :=
  if pyContains pythonTag raw then
    pyStrip ((pySplit fence ((pySplit pythonTag raw).getD 1 [])).getD 0 [])
  else if pyContains fence raw then
    pyStrip ((pySplit fence ((pySplit fence raw).getD 1 [])).getD 0 [])
  else raw

/-- A well-formed table with no missing values, used as a concrete
witness input. -/
def Twit : Table :=
  ⟨["region", "sales"], [Dtype.object, Dtype.number],
   [[Value.str "A", Value.num 10], [Value.str "B", Value.num 20]]⟩

/-- A numeric column whose missing cell becomes `0`, colliding with an
existing `0` row after the fill. -/
def Tdup : Table :=
  ⟨["sales"], [Dtype.number], [[Value.na], [Value.num 0]]⟩

/-- A table with one datetime-like (`other` dtype) column. -/
def Tdt : Table :=
  ⟨["when"], [Dtype.other], [[Value.time 0]]⟩

/-- A table with an `other`-dtype column containing a missing cell. -/
def TdtNa : Table :=
  ⟨["when", "sales"], [Dtype.other, Dtype.number],
   [[Value.na, Value.num 5], [Value.time 3, Value.na]]⟩

/-- A session whose active table is `Twit`. -/
def sWit : SessionState := ⟨some Twit, []⟩

/-- In-place erasure of every row, as `df.drop(df.index, inplace=True)`
would do to the shared `df` object. -/
def dropAllRows : Table → Table := fun t => { t with rows := [] }

/-- Generated code that prints and then raises. -/
def partialCode : List Stmt :=
  [Stmt.print "partial", Stmt.raiseError "division by zero"]

/-- A malformed spreadsheet upload: both parsers reject the bytes. -/
def fBad : UploadedFile :=
  ⟨"broken.xlsx", Except.error "csv parse failed", Except.error "not a spreadsheet"⟩

/-- A file named outside the accepted suffixes whose byte stream happens to
be a valid workbook: `pd.read_excel` detects the format from the content,
not the name. -/
def fTxt : UploadedFile :=
  ⟨"data.txt", Except.error "csv parse failed", Except.ok Twit⟩

/-! ### Generic list lemmas -/

theorem map_id_of_mem {α : Type} (f : α → α) :
    ∀ l : List α, (∀ x ∈ l, f x = x) → l.map f = l := by
  intro l
  induction l with
  | nil => intro _; rfl
  | cons a t ih =>
    intro h
    simp only [List.map_cons]
    rw [h a (List.mem_cons_self a t), ih (fun x hx => h x (List.mem_cons_of_mem a hx))]

theorem getD_map_lt {α β : Type} (f : α → β) :
    ∀ (l : List α) (i : Nat), i < l.length → ∀ (d : β) (e : α),
      (l.map f).getD i d = f (l.getD i e) := by
  intro l
  induction l with
  | nil => intro i hi; simp at hi
  | cons a t ih =>
    intro i hi d e
    cases i with
    | zero => rfl
    | succ j =>
      simp only [List.map_cons, List.getD_cons_succ]
      exact ih j (by simpa using hi) d e

theorem getD_zipWith_lt {α β γ : Type} (f : α → β → γ) :
    ∀ (l₁ : List α) (l₂ : List β) (j : Nat), j < l₁.length → j < l₂.length →
      ∀ (d₁ : α) (d₂ : β) (d₃ : γ),
      (List.zipWith f l₁ l₂).getD j d₃ = f (l₁.getD j d₁) (l₂.getD j d₂) := by
  intro l₁
  induction l₁ with
  | nil => intro l₂ j h₁; simp at h₁
  | cons a t ih =>
    intro l₂ j h₁ h₂ d₁ d₂ d₃
    cases l₂ with
    | nil => simp at h₂
    | cons b u =>
      cases j with
      | zero => rfl
      | succ k =>
        simp only [List.zipWith_cons_cons, List.getD_cons_succ]
        exact ih u k (by simpa using h₁) (by simpa using h₂) d₁ d₂ d₃

theorem getD_mem_of_lt {α : Type} :
    ∀ (l : List α) (i : Nat), i < l.length → ∀ d : α, l.getD i d ∈ l := by
  intro l
  induction l with
  | nil => intro i hi; simp at hi
  | cons a t ih =>
    intro i hi d
    cases i with
    | zero => exact List.mem_cons_self a t
    | succ j => exact List.mem_cons_of_mem a (ih j (by simpa using hi) d)

theorem take_append_len {α : Type} :
    ∀ (a b : List α), (a ++ b).take a.length = a := by
  intro a
  induction a with
  | nil => intro b; rfl
  | cons x t ih => intro b; simp only [List.cons_append, List.length_cons, List.take_succ_cons,
      List.cons.injEq, true_and]; exact ih b

theorem drop_append_len {α : Type} :
    ∀ (a b : List α), (a ++ b).drop a.length = b := by
  intro a
  induction a with
  | nil => intro b; rfl
  | cons x t ih => intro b; exact ih b

theorem drop_add_eq {α : Type} :
    ∀ (l : List α) (m n : Nat), (l.drop m).drop n = l.drop (m + n) := by
  intro l
  induction l with
  | nil => intro m n; simp
  | cons a t ih =>
    intro m n
    cases m with
    | zero => simp
    | succ k =>
      simp only [List.drop_succ_cons]
      rw [ih k n, Nat.succ_add]
      rfl

theorem drop_append_le {α : Type} :
    ∀ (a b : List α) (p : Nat), p ≤ a.length → (a ++ b).drop p = a.drop p ++ b := by
  intro a
  induction a with
  | nil =>
    intro b p hp
    have : p = 0 := Nat.le_zero.mp hp
    subst this; rfl
  | cons x t ih =>
    intro b p hp
    cases p with
    | zero => rfl
    | succ q =>
      simp only [List.cons_append, List.drop_succ_cons]
      exact ih b q (by simpa using hp)

/-! ### Lemmas about `dedupAux` / `dropDuplicates` -/

theorem mem_dedupAux {α : Type} [DecidableEq α] :
    ∀ (l : List α) (seen : List α) (x : α),
      x ∈ dedupAux seen l ↔ x ∈ l ∧ x ∉ seen := by
  intro l
  induction l with
  | nil => intro seen x; simp [dedupAux]
  | cons r rest ih =>
    intro seen x
    by_cases hr : r ∈ seen
    · simp only [dedupAux, if_pos hr, ih]
      constructor
      · rintro ⟨hx, hns⟩; exact ⟨List.mem_cons_of_mem r hx, hns⟩
      · rintro ⟨hx, hns⟩
        rcases List.mem_cons.mp hx with h | h
        · subst h; exact absurd hr hns
        · exact ⟨h, hns⟩
    · simp only [dedupAux, if_neg hr]
      constructor
      · intro hx
        rcases List.mem_cons.mp hx with h | h
        · subst h; exact ⟨List.mem_cons_self _ _, hr⟩
        · rcases (ih (r :: seen) x).mp h with ⟨h1, h2⟩
          refine ⟨List.mem_cons_of_mem r h1, fun hs => h2 (List.mem_cons_of_mem r hs)⟩
      · rintro ⟨hx, hns⟩
        rcases List.mem_cons.mp hx with h | h
        · subst h; exact List.mem_cons_self x _
        · by_cases hxr : x = r
          · subst hxr; exact List.mem_cons_self x _
          · exact List.mem_cons_of_mem r
              ((ih (r :: seen) x).mpr ⟨h, by
                intro hs
                rcases List.mem_cons.mp hs with h' | h'
                · exact hxr h'
                · exact hns h'⟩)

theorem nodup_dedupAux {α : Type} [DecidableEq α] :
    ∀ (l : List α) (seen : List α), (dedupAux seen l).Nodup := by
  intro l
  induction l with
  | nil => intro seen; simp [dedupAux]
  | cons r rest ih =>
    intro seen
    by_cases hr : r ∈ seen
    · simpa [dedupAux, if_pos hr] using ih seen
    · simp only [dedupAux, if_neg hr, List.nodup_cons]
      refine ⟨fun hmem => ?_, ih (r :: seen)⟩
      rcases (mem_dedupAux rest (r :: seen) r).mp hmem with ⟨_, hns⟩
      exact hns (List.mem_cons_self r seen)

theorem dedupAux_of_nodup {α : Type} [DecidableEq α] :
    ∀ (l : List α) (seen : List α), l.Nodup → (∀ x ∈ l, x ∉ seen) →
      dedupAux seen l = l := by
  intro l
  induction l with
  | nil => intro seen _ _; rfl
  | cons r rest ih =>
    intro seen hnd hout
    have hr : r ∉ seen := hout r (List.mem_cons_self r rest)
    simp only [dedupAux, if_neg hr, List.cons.injEq, true_and]
    rcases List.nodup_cons.mp hnd with ⟨hrn, hnd'⟩
    refine ih (r :: seen) hnd' (fun x hx hs => ?_)
    rcases List.mem_cons.mp hs with h | h
    · subst h; exact hrn hx
    · exact hout x (List.mem_cons_of_mem r hx) h

theorem mem_dropDuplicates {x : List Value} {rows : List (List Value)} :
    x ∈ dropDuplicates rows → x ∈ rows := by
  intro h
  exact ((mem_dedupAux rows [] x).mp h).1

theorem nodup_dropDuplicates (rows : List (List Value)) :
    (dropDuplicates rows).Nodup :=
  nodup_dedupAux rows []

theorem dropDuplicates_idem (rows : List (List Value)) :
    dropDuplicates (dropDuplicates rows) = dropDuplicates rows := by
  unfold dropDuplicates
  exact dedupAux_of_nodup _ [] (nodup_dedupAux rows []) (fun x _ hx => List.not_mem_nil x hx)

/-! ### Cell and row lemmas for the cleaning block -/

theorem cellClean_ne_na (dt : Dtype) (v : Value)
    (h : dt = Dtype.number ∨ dt = Dtype.object) : cellClean dt v ≠ Value.na := by
  rcases h with h | h <;> subst h <;> cases v <;> simp [cellClean]

theorem cellClean_eq_self (dt : Dtype) (v : Value)
    (h : (dt = Dtype.number ∨ dt = Dtype.object) → v ≠ Value.na) :
    cellClean dt v = v := by
  cases v with
  | na =>
    cases dt with
    | number => exact absurd rfl (h (Or.inl rfl))
    | object => exact absurd rfl (h (Or.inr rfl))
    | other => rfl
  | num n => rfl
  | str s => rfl
  | boolv b => rfl
  | time t => rfl

theorem cellClean_other (v : Value) : cellClean Dtype.other v = v := by
  cases v <;> rfl

theorem fillRow_no_missing :
    ∀ (dts : List Dtype) (row : List Value), NoMissingRow dts (fillRow dts row) := by
  intro dts
  induction dts with
  | nil =>
    intro row p hp hno
    simp [fillRow] at hp
  | cons d ds ih =>
    intro row
    cases row with
    | nil =>
      intro p hp hno
      simp [fillRow] at hp
    | cons v vs =>
      intro p hp hno
      have hp' : p ∈ (d, cellClean d v) :: ds.zip (fillRow ds vs) := by
        simpa [fillRow, List.zip_cons_cons] using hp
      rcases List.mem_cons.mp hp' with h | h
      · subst h; exact cellClean_ne_na d v hno
      · exact ih vs p h hno

theorem fillRow_eq_self :
    ∀ (dts : List Dtype) (row : List Value), NoMissingRow dts row →
      row.length ≤ dts.length → fillRow dts row = row := by
  intro dts
  induction dts with
  | nil =>
    intro row h hl
    have : row = [] := List.length_eq_zero.mp (Nat.le_zero.mp hl)
    subst this; rfl
  | cons d ds ih =>
    intro row h hl
    cases row with
    | nil => rfl
    | cons v vs =>
      have h1 : cellClean d v = v :=
        cellClean_eq_self d v (fun hd => h (d, v) (by simp [List.zip_cons_cons]) hd)
      have h2 : fillRow ds vs = vs :=
        ih vs (fun p hp hd => h p (by simp [List.zip_cons_cons, hp]) hd) (by simpa using hl)
      show cellClean d v :: fillRow ds vs = v :: vs
      rw [h1, h2]

theorem clean_rows_eq (T : Table) :
    (clean T).rows = (dropDuplicates T.rows).map (fillRow T.dtypes) := rfl

theorem clean_names (T : Table) : (clean T).names = T.names := rfl

theorem clean_dtypes (T : Table) : (clean T).dtypes = T.dtypes := rfl

theorem table_eq_of_fields {A B : Table} (hn : A.names = B.names)
    (hd : A.dtypes = B.dtypes) (hr : A.rows = B.rows) : A = B := by
  cases A; cases B; simp_all

theorem clean_rows_of_no_missing (T : Table) (hwf : WF T) (hnm : NoMissingTable T) :
    (clean T).rows = dropDuplicates T.rows := by
  rw [clean_rows_eq]
  apply map_id_of_mem
  intro r hr
  exact fillRow_eq_self T.dtypes r (hnm r (mem_dropDuplicates hr))
    (le_of_eq (hwf.2 r (mem_dropDuplicates hr)))

/-- C1 (counterexample): the claim `clean (clean T) = clean T` for every
table fails on `Tdup`: its rows `[NaN]` and `[0]` are distinct, so
`drop_duplicates` keeps both, and the numeric fill then turns them into two
equal `[0]` rows; the second `clean` removes the new duplicate, so
`clean (clean Tdup)` has one row while `clean Tdup` has two. -/
theorem clean_not_idempotent_on_missing : clean (clean Tdup) ≠ clean Tdup := by
  decide

/-- C1 (amended): `clean` is idempotent on every well-formed table with no
missing value in the columns classified numeric or categorical (the fill
introduces nothing, so no new duplicate rows can appear). -/
theorem clean_idempotent_of_no_missing (T : Table) (hwf : WF T)
    (hnm : NoMissingTable T) : clean (clean T) = clean T := by
  have hrows : (clean T).rows = dropDuplicates T.rows :=
    clean_rows_of_no_missing T hwf hnm
  refine table_eq_of_fields rfl rfl ?_
  rw [clean_rows_eq (clean T), clean_dtypes, hrows, dropDuplicates_idem, ← hrows]
  apply map_id_of_mem
  intro r hr
  rw [hrows] at hr
  exact fillRow_eq_self T.dtypes r (hnm r (mem_dropDuplicates hr))
    (le_of_eq (hwf.2 r (mem_dropDuplicates hr)))

/-- C1 (witness): the amended idempotence at a concrete table. -/
theorem clean_idempotent_witness : clean (clean Twit) = clean Twit :=
  clean_idempotent_of_no_missing Twit (by decide) (by decide)

/-- C2 (counterexample): the claim that `clean T` never contains duplicate
rows fails on `Tdup`: filling the missing numeric cell with `0` after
deduplication produces two equal `[0]` rows. -/
theorem clean_output_has_duplicates : ¬ (clean Tdup).rows.Nodup := by
  decide

/-- C2 (amended): for every well-formed table the output of `clean` has no
missing value in any column classified numeric or categorical; it also has
no duplicate rows provided the input already had no missing value in those
columns (in general the fill step, which runs after `drop_duplicates`, can
create new duplicate rows). -/
theorem clean_no_missing_and_nodup (T : Table) (hwf : WF T) :
    NoMissingTable (clean T) ∧ (NoMissingTable T → (clean T).rows.Nodup) := by
  constructor
  · intro row hrow
    rw [clean_rows_eq] at hrow
    rcases List.mem_map.mp hrow with ⟨r, _, hre⟩
    subst hre
    show NoMissingRow T.dtypes (fillRow T.dtypes r)
    exact fillRow_no_missing T.dtypes r
  · intro hnm
    rw [clean_rows_of_no_missing T hwf hnm]
    exact nodup_dropDuplicates T.rows

/-- C2 (witness): the amended guarantee at a concrete table. -/
theorem clean_no_missing_witness :
    NoMissingTable (clean Twit) ∧ (NoMissingTable Twit → (clean Twit).rows.Nodup) :=
  clean_no_missing_and_nodup Twit (by decide)

/-! ### Lemmas about `num_cols` / `cat_cols` -/

theorem zip_exists_of_mem_left {α β : Type} :
    ∀ (l₁ : List α) (l₂ : List β), l₁.length = l₂.length →
      ∀ a ∈ l₁, ∃ b, (a, b) ∈ l₁.zip l₂ := by
  intro l₁
  induction l₁ with
  | nil => intro l₂ h a ha; simp at ha
  | cons x t ih =>
    intro l₂ h a ha
    cases l₂ with
    | nil => simp at h
    | cons y u =>
      rcases List.mem_cons.mp ha with h' | h'
      · subst h'; exact ⟨y, by simp [List.zip_cons_cons]⟩
      · rcases ih u (by simpa using h) a h' with ⟨b, hb⟩
        exact ⟨b, by simp [List.zip_cons_cons, hb]⟩

theorem zip_fun_of_nodup {α β : Type} :
    ∀ (l₁ : List α) (l₂ : List β), l₁.Nodup →
      ∀ (a : α) (b₁ b₂ : β), (a, b₁) ∈ l₁.zip l₂ → (a, b₂) ∈ l₁.zip l₂ → b₁ = b₂ := by
  intro l₁
  induction l₁ with
  | nil => intro l₂ _ a b₁ b₂ h1; simp at h1
  | cons x t ih =>
    intro l₂ hnd a b₁ b₂ h1 h2
    cases l₂ with
    | nil => simp at h1
    | cons y u =>
      rcases List.nodup_cons.mp hnd with ⟨hx, hnd'⟩
      simp only [List.zip_cons_cons, List.mem_cons, Prod.mk.injEq] at h1 h2
      rcases h1 with ⟨ha1, hb1⟩ | h1
      · rcases h2 with ⟨ha2, hb2⟩ | h2
        · rw [hb1, hb2]
        · exact absurd (ha1 ▸ (List.of_mem_zip h2).1) hx
      · rcases h2 with ⟨ha2, hb2⟩ | h2
        · exact absurd (ha2 ▸ (List.of_mem_zip h1).1) hx
        · exact ih u hnd' a b₁ b₂ h1 h2

theorem mem_num_cols {T : Table} {n : String} :
    n ∈ num_cols T ↔ (n, Dtype.number) ∈ T.names.zip T.dtypes := by
  unfold num_cols
  rw [List.mem_filterMap]
  constructor
  · rintro ⟨⟨pn, pd⟩, hp, he⟩
    by_cases h : pd = Dtype.number
    · subst h
      simp at he
      subst he; exact hp
    · simp only [if_neg h] at he
      cases he
  · intro h
    exact ⟨(n, Dtype.number), h, by simp⟩

theorem mem_cat_cols {T : Table} {n : String} :
    n ∈ cat_cols T ↔ (n, Dtype.object) ∈ T.names.zip T.dtypes := by
  unfold cat_cols
  rw [List.mem_filterMap]
  constructor
  · rintro ⟨⟨pn, pd⟩, hp, he⟩
    by_cases h : pd = Dtype.object
    · subst h
      simp at he
      subst he; exact hp
    · simp only [if_neg h] at he
      cases he
  · intro h
    exact ⟨(n, Dtype.object), h, by simp⟩

/-- C4 (counterexample): on a table whose only column has a dtype other
than numeric and object (a datetime column), `select_dtypes` puts the
column name in neither `num_cols` nor `cat_cols`, so the two sets do not
cover the column set. -/
theorem classify_misses_other_dtype :
    Tdt.names ≠ [] ∧ "when" ∈ Tdt.names ∧
    "when" ∉ num_cols Tdt ∧ "when" ∉ cat_cols Tdt := by
  decide

/-- C4 (amended): for every table with at least one column, distinct
column names, and every column dtype numeric or object, `num_cols` and
`cat_cols` are disjoint and their union is the full column set; columns of
any other dtype (datetime, bool, ...) fall in neither set. -/
theorem classify_partitions_of_num_or_obj (T : Table)
    (_hne : T.names ≠ []) (hlen : T.names.length = T.dtypes.length)
    (hnd : T.names.Nodup)
    (hall : ∀ dt ∈ T.dtypes, dt = Dtype.number ∨ dt = Dtype.object) :
    (∀ n, n ∈ T.names ↔ (n ∈ num_cols T ∨ n ∈ cat_cols T)) ∧
    (∀ n, ¬ (n ∈ num_cols T ∧ n ∈ cat_cols T)) := by
  constructor
  · intro n
    constructor
    · intro hn
      rcases zip_exists_of_mem_left T.names T.dtypes hlen n hn with ⟨dt, hdt⟩
      rcases hall dt (List.of_mem_zip hdt).2 with h | h
      · exact Or.inl (mem_num_cols.mpr (h ▸ hdt))
      · exact Or.inr (mem_cat_cols.mpr (h ▸ hdt))
    · intro hn
      rcases hn with h | h
      · exact (List.of_mem_zip (mem_num_cols.mp h)).1
      · exact (List.of_mem_zip (mem_cat_cols.mp h)).1
  · rintro n ⟨h1, h2⟩
    have := zip_fun_of_nodup T.names T.dtypes hnd n Dtype.number Dtype.object
      (mem_num_cols.mp h1) (mem_cat_cols.mp h2)
    cases this

/-- C4 (witness): the amended partition property at a concrete table. -/
theorem classify_partitions_witness :
    (∀ n, n ∈ Twit.names ↔ (n ∈ num_cols Twit ∨ n ∈ cat_cols Twit)) ∧
    (∀ n, ¬ (n ∈ num_cols Twit ∧ n ∈ cat_cols Twit)) :=
  classify_partitions_of_num_or_obj Twit (by decide) (by decide) (by decide) (by decide)

/-- C10: in every column whose dtype is neither numeric nor object, the
fill step of `clean` changes nothing: the cleaned cell equals the
corresponding cell after deduplication alone, so missing values in such
columns survive cleaning. -/
theorem clean_preserves_other_dtype_values (T : Table) (hwf : WF T)
    (j : Nat) (hj : j < T.dtypes.length)
    (hdt : T.dtypes.getD j Dtype.number = Dtype.other)
    (i : Nat) (hi : i < (clean T).rows.length) :
    ((clean T).rows.getD i []).getD j Value.na
      = ((dropDuplicates T.rows).getD i []).getD j Value.na := by
  have hlen : (clean T).rows.length = (dropDuplicates T.rows).length := by
    rw [clean_rows_eq]; exact List.length_map _ _
  have hi' : i < (dropDuplicates T.rows).length := hlen ▸ hi
  have hrow : (clean T).rows.getD i []
      = fillRow T.dtypes ((dropDuplicates T.rows).getD i []) := by
    rw [clean_rows_eq]
    exact getD_map_lt (fillRow T.dtypes) (dropDuplicates T.rows) i hi' [] []
  rw [hrow]
  have hmem : (dropDuplicates T.rows).getD i [] ∈ T.rows :=
    mem_dropDuplicates (getD_mem_of_lt _ i hi' [])
  have hjr : j < ((dropDuplicates T.rows).getD i []).length := by
    rw [hwf.2 _ hmem]; exact hj
  have hz := getD_zipWith_lt cellClean T.dtypes ((dropDuplicates T.rows).getD i [])
    j hj hjr Dtype.number Value.na Value.na
  rw [show fillRow T.dtypes ((dropDuplicates T.rows).getD i [])
      = List.zipWith cellClean T.dtypes ((dropDuplicates T.rows).getD i []) from rfl,
    hz, hdt, cellClean_other]

/-- C10 (witness): at a concrete table with a missing cell in a
datetime-like column, cleaning leaves the deduplicated cell as is (and the
cell is in fact still missing). -/
theorem clean_preserves_other_witness :
    ((clean TdtNa).rows.getD 0 []).getD 0 Value.na
      = ((dropDuplicates TdtNa.rows).getD 0 []).getD 0 Value.na :=
  clean_preserves_other_dtype_values TdtNa (by decide) 0 (by decide) (by decide)
    0 (by decide)

/-! ### The execution bridge: C3, C6, C7, C8 -/

/-- C3 (counterexample): code that writes `partial` and then raises leaves
`partial` in the captured buffer, yet the chat pass shows no text at all on
the error path (the inner `except` of app.py lines 310-311 never reads the
buffer), contradicting the claim that the captured text `partial` is still
shown. -/
theorem exec_error_partial_output_not_shown :
    (runStmts partialCode Twit "" false).buffer = "partial" ∧
    (chatStep sWit "total sales" (CollabOutcome.reply partialCode)).shownText = none ∧
    (chatStep sWit "total sales" (CollabOutcome.reply partialCode)).shownText
      ≠ some "partial" := by
  decide

/-- C3 (amended): when the extracted code raises a runtime error, the error
detail is surfaced as `Code Execution Error: ...`, and the output captured
before the failure is discarded - no text is shown. -/
theorem exec_error_surfaces_and_discards_output (s : SessionState) (df : Table)
    (q : String) (code : List Stmt) (e : String)
    (hdf : s.df_cleaned = some df)
    (herr : (runStmts code df "" false).error = some e) :
    (chatStep s q (CollabOutcome.reply code)).shownError
        = some ("Code Execution Error: " ++ e) ∧
    (chatStep s q (CollabOutcome.reply code)).shownText = none := by
  obtain ⟨dfc, msgs⟩ := s
  change dfc = some df at hdf
  subst hdf
  rcases hR : runStmts code df "" false with ⟨buf, dfF, fig, err⟩
  rw [hR] at herr
  change err = some e at herr
  subst herr
  constructor <;> simp [chatStep, hR]

/-- C3 (witness): the amended behaviour at the concrete print-then-raise
code. -/
theorem exec_error_surfaces_witness :
    (chatStep sWit "total sales" (CollabOutcome.reply partialCode)).shownError
        = some ("Code Execution Error: " ++ "division by zero") ∧
    (chatStep sWit "total sales" (CollabOutcome.reply partialCode)).shownText = none :=
  exec_error_surfaces_and_discards_output sWit Twit "total sales" partialCode
    "division by zero" rfl (by decide)

/-- C6: the scope in which generated code starts executing resolves exactly
the three names `df`, `pd`, `px` (to the active table and the two library
namespaces); every other name, in particular every name bound in the
enclosing module and handler scope of app.py, is unreachable. -/
theorem exec_scope_exact_bindings (df : Table) :
    (∀ x, (lookupName df x).isSome = true ↔ (x = "df" ∨ x = "pd" ∨ x = "px")) ∧
    lookupName df "df" = some (PyVal.table df) ∧
    lookupName df "pd" = some (PyVal.moduleNS "pandas") ∧
    lookupName df "px" = some (PyVal.moduleNS "plotly.express") ∧
    (∀ x ∈ enclosing_scope_names, x ≠ "df" → x ≠ "pd" → x ≠ "px" →
      lookupName df x = none) := by
  have hiff : ∀ x, (lookupName df x).isSome = true ↔ (x = "df" ∨ x = "pd" ∨ x = "px") := by
    intro x
    by_cases h1 : x = "df"
    · subst h1; simp [lookupName, local_scope, exec_globals, List.lookup]
    · by_cases h2 : x = "pd"
      · subst h2; simp [lookupName, local_scope, exec_globals, List.lookup]
      · by_cases h3 : x = "px"
        · subst h3; simp [lookupName, local_scope, exec_globals, List.lookup]
        · have b1 : (x == "df") = false := beq_eq_false_iff_ne.mpr h1
          have b2 : (x == "pd") = false := beq_eq_false_iff_ne.mpr h2
          have b3 : (x == "px") = false := beq_eq_false_iff_ne.mpr h3
          simp [lookupName, local_scope, exec_globals, List.lookup, b1, b2, b3, h1, h2, h3]
  refine ⟨hiff, rfl, rfl, rfl, ?_⟩
  intro x _ h1 h2 h3
  cases hl : lookupName df x with
  | none => rfl
  | some v =>
    exfalso
    have hmem : x = "df" ∨ x = "pd" ∨ x = "px" := (hiff x).mp (by rw [hl]; rfl)
    tauto

/-- C6 (witness): a name of the enclosing scope (here the Groq `client`) is
unreachable from the executed code. -/
theorem exec_scope_witness : lookupName Twit "client" = none :=
  (exec_scope_exact_bindings Twit).2.2.2.2 "client" (by decide) (by decide)
    (by decide) (by decide)

theorem runStmts_no_mutation :
    ∀ (code : List Stmt) (df : Table) (buf : String) (fig : Bool),
      (∀ stm ∈ code, stm.mutates = false) → (runStmts code df buf fig).dfFinal = df := by
  intro code
  induction code with
  | nil => intro df buf fig _; rfl
  | cons stm rest ih =>
    intro df buf fig h
    cases stm with
    | print s => exact ih df (buf ++ s) fig (fun x hx => h x (List.mem_cons_of_mem _ hx))
    | raiseError m => rfl
    | assignFig => exact ih df buf true (fun x hx => h x (List.mem_cons_of_mem _ hx))
    | mutateDf f =>
      have hm := h (Stmt.mutateDf f) (List.mem_cons_self _ _)
      simp [Stmt.mutates] at hm

/-- C7 (counterexample): the chat bridge does mutate the active table when
the executed code mutates the `df` object in place (as
`df.drop(df.index, inplace=True)` does): `local_scope["df"]` aliases
`st.session_state['df_cleaned']`, so after the query the active table is no
longer the table that was active before - it was not replaced by a load or
clean, contradicting the claim. -/
theorem chat_exec_mutates_active_table :
    (chatStep sWit "clear" (CollabOutcome.reply [Stmt.mutateDf dropAllRows])).state.df_cleaned
      ≠ sWit.df_cleaned := by
  decide

/-- C7 (amended): the dashboard page and the custom chart builder only
read the session state, a collaborator failure leaves the active table
unchanged, and the chat bridge leaves the active table unchanged whenever
the executed code contains no in-place mutation of the `df` object; code
that does mutate `df` in place changes the active table without any load
or clean. -/
theorem active_table_preserved_without_mutation (s : SessionState) (df : Table)
    (q : String) (hdf : s.df_cleaned = some df) :
    (∀ metric, (dashboardStep s metric).1 = s) ∧
    (∀ x y ct, (customChartStep s x y ct).1 = s) ∧
    (∀ e, (chatStep s q (CollabOutcome.serviceError e)).state.df_cleaned = s.df_cleaned) ∧
    (∀ code, (∀ stm ∈ code, stm.mutates = false) →
      (chatStep s q (CollabOutcome.reply code)).state.df_cleaned = s.df_cleaned) := by
  obtain ⟨dfc, msgs⟩ := s
  change dfc = some df at hdf
  subst hdf
  refine ⟨?_, ?_, ?_, ?_⟩
  · intro metric
    simp only [dashboardStep]
    cases List.findIdx? (fun m => m == metric) df.names <;> rfl
  · intro x y ct
    simp only [customChartStep]
    cases List.findIdx? (fun m => m == x) df.names with
    | none => cases List.findIdx? (fun m => m == y) df.names <;> rfl
    | some xj => cases List.findIdx? (fun m => m == y) df.names <;> rfl
  · intro e; rfl
  · intro code hnm
    have hdfF := runStmts_no_mutation code df "" false hnm
    rcases hR : runStmts code df "" false with ⟨buf, dfF, fig, err⟩
    rw [hR] at hdfF
    change dfF = df at hdfF
    subst hdfF
    cases err with
    | none => simp [chatStep, hR]
    | some e => simp [chatStep, hR]

/-- C7 (witness): non-mutating generated code leaves the active table
unchanged. -/
theorem active_table_preserved_witness :
    (chatStep sWit "total" (CollabOutcome.reply [Stmt.print "60"])).state.df_cleaned
      = sWit.df_cleaned :=
  (active_table_preserved_without_mutation sWit Twit "total" rfl).2.2.2
    [Stmt.print "60"] (by decide)

/-- C8: conversation-log discipline of one chat pass: the user question is
always appended; on a collaborator failure or a runtime error nothing else
is appended; on success the captured text is appended when non-empty,
followed by the placeholder `(Chart Generated)` when a chart was bound. -/
theorem chat_log_discipline (s : SessionState) (df : Table) (q : String)
    (hdf : s.df_cleaned = some df) :
    (∀ e, (chatStep s q (CollabOutcome.serviceError e)).state.messages
        = s.messages ++ [⟨Role.user, q⟩]) ∧
    (∀ code e, (runStmts code df "" false).error = some e →
      (chatStep s q (CollabOutcome.reply code)).state.messages
        = s.messages ++ [⟨Role.user, q⟩]) ∧
    (∀ code, (runStmts code df "" false).error = none →
      (chatStep s q (CollabOutcome.reply code)).state.messages
        = s.messages ++ [⟨Role.user, q⟩]
          ++ (if (runStmts code df "" false).buffer = "" then []
              else [⟨Role.assistant, (runStmts code df "" false).buffer⟩])
          ++ (if (runStmts code df "" false).figSet = true then
                [⟨Role.assistant, "(Chart Generated)"⟩] else [])) := by
  obtain ⟨dfc, msgs⟩ := s
  change dfc = some df at hdf
  subst hdf
  refine ⟨?_, ?_, ?_⟩
  · intro e; rfl
  · intro code e herr
    rcases hR : runStmts code df "" false with ⟨buf, dfF, fig, err⟩
    rw [hR] at herr
    change err = some e at herr
    subst herr
    simp [chatStep, hR]
  · intro code herr
    rcases hR : runStmts code df "" false with ⟨buf, dfF, fig, err⟩
    rw [hR] at herr
    change err = none at herr
    subst herr
    cases fig <;> by_cases hb : buf = "" <;> simp [chatStep, hR, hb]

/-- C8 (witness): on a collaborator failure only the user question is
appended. -/
theorem chat_log_discipline_witness :
    (chatStep sWit "total" (CollabOutcome.serviceError "down")).state.messages
      = sWit.messages ++ [⟨Role.user, "total"⟩] :=
  (chat_log_discipline sWit Twit "total" rfl).1 "down"

/-! ### The loader: C9 -/

/-- C9 (counterexample): `load_data` never rejects by extension: a file
named `data.txt` whose byte stream is a valid workbook (pandas detects the
xlsx format from the content, not the name) is dispatched to `pd.read_excel`
and loads successfully - no LoadError is reported and a table is produced,
contradicting the claim that an unsupported extension fails with a
LoadError. -/
theorem load_unsupported_extension_no_error :
    extensionAccepted "data.txt" = false ∧ load_data fTxt = some Twit := by
  decide

/-- C9 (amended): when the dispatched parser cannot parse the byte stream,
`load_data` produces no table and the whole pass leaves the session (and
thus any previously active table) unchanged, the failure being reported as
a LoadError notice; a file with an unaccepted extension never reaches
`load_data` (the uploader filters it, silently leaving the session
unchanged), rather than failing with a LoadError. -/
theorem load_failure_leaves_state (s : SessionState) (f : UploadedFile) (cm : Bool) :
    (∀ e, dispatchParse f = Except.error e →
      load_data f = none ∧ handleUpload s f cm = s) ∧
    (extensionAccepted f.name = false → uploadGate s f cm = s) := by
  constructor
  · intro e he
    have hl : load_data f = none := by unfold load_data; rw [he]
    refine ⟨hl, ?_⟩
    unfold handleUpload
    rw [hl]
  · intro hx
    unfold uploadGate
    rw [hx]
    simp

/-- C9 (witness): a malformed spreadsheet fails to load and leaves the
session unchanged. -/
theorem load_failure_witness :
    load_data fBad = none ∧ handleUpload sWit fBad true = sWit :=
  (load_failure_leaves_state sWit fBad true).1 "not a spreadsheet" (by
    unfold dispatchParse
    have h : pyEndsWith fBad.name ".csv" = false := by decide
    rw [h]
    rfl)

/-! ### Lemmas about `isPrefixOf`, `firstOcc`, `pySplit` -/

theorem isPrefixOf_nil_false (sep : List Char) (hsep : sep ≠ []) :
    sep.isPrefixOf ([] : List Char) = false := by
  cases sep with
  | nil => exact absurd rfl hsep
  | cons c t => rfl

theorem isPrefixOf_append_self :
    ∀ (x y : List Char), x.isPrefixOf (x ++ y) = true := by
  intro x
  induction x with
  | nil => intro y; cases y <;> rfl
  | cons c t ih =>
    intro y
    simp only [List.cons_append, List.isPrefixOf, Bool.and_eq_true, beq_self_eq_true,
      true_and]
    exact ih y

theorem isPrefixOf_of_append :
    ∀ (x y w : List Char), (x ++ y).isPrefixOf w = true → x.isPrefixOf w = true := by
  intro x
  induction x with
  | nil => intro y w _; cases w <;> rfl
  | cons c t ih =>
    intro y w h
    cases w with
    | nil => simp [List.isPrefixOf] at h
    | cons d u =>
      simp only [List.cons_append, List.isPrefixOf, Bool.and_eq_true] at h ⊢
      exact ⟨h.1, ih y u h.2⟩

theorem isPrefixOf_append_right :
    ∀ (x y z : List Char), x.isPrefixOf y = true → x.isPrefixOf (y ++ z) = true := by
  intro x
  induction x with
  | nil =>
    intro y z _
    cases y with
    | nil => cases z <;> rfl
    | cons d u => rfl
  | cons c t ih =>
    intro y z h
    cases y with
    | nil => simp [List.isPrefixOf] at h
    | cons d u =>
      simp only [List.cons_append, List.isPrefixOf, Bool.and_eq_true] at h ⊢
      exact ⟨h.1, ih u z h.2⟩

theorem isPrefixOf_drop_le (sep s : List Char) (p : Nat) (hsep : sep ≠ [])
    (h : sep.isPrefixOf (s.drop p) = true) : p ≤ s.length := by
  by_contra hc
  push_neg at hc
  have hnil : s.drop p = [] := List.drop_eq_nil_of_le (le_of_lt hc)
  rw [hnil, isPrefixOf_nil_false sep hsep] at h
  cases h

theorem firstOcc_some_pos (sep : List Char) (hsep : sep ≠ []) :
    ∀ (s : List Char) (i : Nat), firstOcc sep s = some i → 0 < s.length := by
  intro s i h
  cases s with
  | nil => simp [firstOcc, isPrefixOf_nil_false sep hsep] at h
  | cons c t => simp

theorem firstOcc_isPrefix :
    ∀ (s sep : List Char) (i : Nat), firstOcc sep s = some i →
      sep.isPrefixOf (s.drop i) = true := by
  intro s
  induction s with
  | nil =>
    intro sep i h
    by_cases hp : sep.isPrefixOf ([] : List Char) = true
    · simp only [firstOcc, if_pos hp] at h
      cases h
      simpa using hp
    · simp [firstOcc, hp] at h
  | cons c t ih =>
    intro sep i h
    by_cases hp : sep.isPrefixOf (c :: t) = true
    · simp only [firstOcc, if_pos hp] at h
      cases h
      simpa using hp
    · simp only [firstOcc, if_neg hp] at h
      cases hf : firstOcc sep t with
      | none => rw [hf] at h; cases h
      | some j =>
        rw [hf] at h
        simp only [Option.map_some', Option.some.injEq] at h
        subst h
        show sep.isPrefixOf (t.drop j) = true
        exact ih sep j hf

theorem firstOcc_min :
    ∀ (s sep : List Char) (i : Nat), firstOcc sep s = some i →
      ∀ p, p < i → sep.isPrefixOf (s.drop p) = false := by
  intro s
  induction s with
  | nil =>
    intro sep i h p hp
    by_cases hpre : sep.isPrefixOf ([] : List Char) = true
    · simp only [firstOcc, if_pos hpre] at h
      cases h
      omega
    · simp [firstOcc, hpre] at h
  | cons c t ih =>
    intro sep i h p hp
    by_cases hpre : sep.isPrefixOf (c :: t) = true
    · simp only [firstOcc, if_pos hpre] at h
      cases h
      omega
    · simp only [firstOcc, if_neg hpre] at h
      cases hf : firstOcc sep t with
      | none => rw [hf] at h; cases h
      | some j =>
        rw [hf] at h
        simp only [Option.map_some', Option.some.injEq] at h
        subst h
        cases p with
        | zero =>
          show sep.isPrefixOf (c :: t) = false
          cases hb : sep.isPrefixOf (c :: t) with
          | false => rfl
          | true => exact absurd hb hpre
        | succ q =>
          show sep.isPrefixOf (t.drop q) = false
          exact ih sep j hf q (by omega)

theorem firstOcc_eq_some :
    ∀ (s sep : List Char) (i : Nat), sep.isPrefixOf (s.drop i) = true →
      (∀ p, p < i → sep.isPrefixOf (s.drop p) = false) →
      firstOcc sep s = some i := by
  intro s
  induction s with
  | nil =>
    intro sep i hpre hmin
    cases i with
    | zero =>
      have hp : sep.isPrefixOf ([] : List Char) = true := hpre
      simp [firstOcc, hp]
    | succ q =>
      have h0 : sep.isPrefixOf ([] : List Char) = false := hmin 0 (Nat.succ_pos q)
      have hp : sep.isPrefixOf ([] : List Char) = true := by
        have : ([] : List Char).drop (q + 1) = ([] : List Char) := List.drop_nil
        rw [this] at hpre
        exact hpre
      rw [h0] at hp
      cases hp
  | cons c t ih =>
    intro sep i hpre hmin
    cases i with
    | zero =>
      have hp : sep.isPrefixOf (c :: t) = true := hpre
      simp [firstOcc, hp]
    | succ q =>
      have h0 : sep.isPrefixOf (c :: t) = false := hmin 0 (Nat.succ_pos q)
      simp only [firstOcc, h0, Bool.false_eq_true, if_false]
      rw [ih sep q hpre (fun p hp => hmin (p + 1) (by omega))]
      rfl

theorem firstOcc_eq_none :
    ∀ (s sep : List Char), (∀ p, sep.isPrefixOf (s.drop p) = false) →
      firstOcc sep s = none := by
  intro s
  induction s with
  | nil =>
    intro sep h
    have h0 : sep.isPrefixOf ([] : List Char) = false := h 0
    simp [firstOcc, h0]
  | cons c t ih =>
    intro sep h
    have h0 : sep.isPrefixOf (c :: t) = false := h 0
    simp only [firstOcc, h0, Bool.false_eq_true, if_false]
    rw [ih sep (fun p => h (p + 1))]
    rfl

theorem firstOcc_none_all :
    ∀ (s sep : List Char), sep ≠ [] → firstOcc sep s = none →
      ∀ p, sep.isPrefixOf (s.drop p) = false := by
  intro s
  induction s with
  | nil =>
    intro sep hsep _ p
    rw [List.drop_nil]
    exact isPrefixOf_nil_false sep hsep
  | cons c t ih =>
    intro sep hsep h p
    by_cases hp : sep.isPrefixOf (c :: t) = true
    · simp [firstOcc, hp] at h
    · have h0 : sep.isPrefixOf (c :: t) = false := by
        cases hb : sep.isPrefixOf (c :: t) with
        | false => rfl
        | true => exact absurd hb hp
      simp only [firstOcc, h0, Bool.false_eq_true, if_false] at h
      have hf : firstOcc sep t = none := by
        cases hft : firstOcc sep t with
        | none => rfl
        | some j => rw [hft] at h; cases h
      cases p with
      | zero => exact h0
      | succ q => exact ih sep hsep hf q

theorem pyContains_true_of_occ (sep s : List Char) (p : Nat) (hsep : sep ≠ [])
    (h : sep.isPrefixOf (s.drop p) = true) : pyContains sep s = true := by
  unfold pyContains
  cases hf : firstOcc sep s with
  | some i => rfl
  | none =>
    rw [firstOcc_none_all s sep hsep hf p] at h
    cases h

theorem tag_not_contained (raw : List Char) (h : pyContains fence raw = false) :
    pyContains pythonTag raw = false := by
  cases hb : pyContains pythonTag raw with
  | false => rfl
  | true =>
    exfalso
    unfold pyContains at hb
    cases hf : firstOcc pythonTag raw with
    | none => rw [hf] at hb; cases hb
    | some i =>
      have hpre := firstOcc_isPrefix raw pythonTag i hf
      have hfe : fence.isPrefixOf (raw.drop i) = true := by
        have hsplit : fence ++ ("python".data) = pythonTag := by decide
        rw [← hsplit] at hpre
        exact isPrefixOf_of_append fence ("python".data) (raw.drop i) hpre
      rw [pyContains_true_of_occ fence raw i (by decide) hfe] at h
      cases h

theorem pySplitFuel_congr (sep : List Char) (hsep : sep ≠ []) :
    ∀ (f1 : Nat) (s : List Char) (f2 : Nat), s.length ≤ f1 → s.length ≤ f2 →
      pySplitFuel sep f1 s = pySplitFuel sep f2 s := by
  intro f1
  induction f1 with
  | zero =>
    intro s f2 h1 _
    have hs : s = [] := List.length_eq_zero.mp (Nat.le_zero.mp h1)
    subst hs
    have hf : firstOcc sep [] = none := by
      simp [firstOcc, isPrefixOf_nil_false sep hsep]
    cases f2 with
    | zero => rfl
    | succ g2 => simp [pySplitFuel, hf]
  | succ g1 ih =>
    intro s f2 h1 h2
    cases hf : firstOcc sep s with
    | none =>
      cases f2 with
      | zero =>
        have hs : s = [] := List.length_eq_zero.mp (Nat.le_zero.mp h2)
        subst hs
        simp [pySplitFuel, hf]
      | succ g2 => simp [pySplitFuel, hf]
    | some i =>
      have hpos : 0 < s.length := firstOcc_some_pos sep hsep s i hf
      have hsl : 1 ≤ sep.length := by
        cases sep with
        | nil => exact absurd rfl hsep
        | cons x y => simp
      have hd : (s.drop (i + sep.length)).length = s.length - (i + sep.length) :=
        List.length_drop _ _
      cases f2 with
      | zero => omega
      | succ g2 =>
        simp only [pySplitFuel, hf]
        congr 1
        apply ih
        · rw [hd]; omega
        · rw [hd]; omega

theorem pySplit_none (sep s : List Char) (h : firstOcc sep s = none) :
    pySplit sep s = [s] := by
  cases s with
  | nil => rfl
  | cons c t =>
    show pySplitFuel sep (t.length + 1) (c :: t) = [c :: t]
    simp [pySplitFuel, h]

theorem pySplit_some (sep s : List Char) (hsep : sep ≠ []) (i : Nat)
    (h : firstOcc sep s = some i) :
    pySplit sep s = s.take i :: pySplit sep (s.drop (i + sep.length)) := by
  cases s with
  | nil =>
    have := firstOcc_some_pos sep hsep [] i h
    simp at this
  | cons c t =>
    show pySplitFuel sep (t.length + 1) (c :: t)
      = (c :: t).take i :: pySplit sep ((c :: t).drop (i + sep.length))
    simp only [pySplitFuel, h]
    congr 1
    have hsl : 1 ≤ sep.length := by
      cases sep with
      | nil => exact absurd rfl hsep
      | cons x y => simp
    have hd : ((c :: t).drop (i + sep.length)).length
        = (c :: t).length - (i + sep.length) := List.length_drop _ _
    apply pySplitFuel_congr sep hsep
    · rw [hd]; simp; omega
    · exact le_refl _

theorem firstOcc_append (a sep r : List Char) (_hsep : sep ≠ [])
    (hno : ∀ p, p < a.length → sep.isPrefixOf ((a ++ (sep ++ r)).drop p) = false) :
    firstOcc sep (a ++ (sep ++ r)) = some a.length := by
  apply firstOcc_eq_some
  · rw [drop_append_len a (sep ++ r)]
    exact isPrefixOf_append_self sep r
  · exact hno

theorem pySplit_append (a sep r : List Char) (hsep : sep ≠ [])
    (hno : ∀ p, p < a.length → sep.isPrefixOf ((a ++ (sep ++ r)).drop p) = false) :
    pySplit sep (a ++ (sep ++ r)) = a :: pySplit sep r := by
  rw [pySplit_some sep _ hsep a.length (firstOcc_append a sep r hsep hno)]
  congr 1
  · exact take_append_len a (sep ++ r)
  · congr 1
    rw [← drop_add_eq (a ++ (sep ++ r)) a.length sep.length]
    rw [drop_append_len a (sep ++ r)]
    rw [drop_append_len sep r]

theorem firstOcc_tail_none (a sep r : List Char) (hsep : sep ≠ [])
    (huniq : ∀ p, p ≤ (a ++ (sep ++ r)).length →
      sep.isPrefixOf ((a ++ (sep ++ r)).drop p) = true → p = a.length) :
    firstOcc sep r = none := by
  apply firstOcc_eq_none
  intro p
  cases hb : sep.isPrefixOf (r.drop p) with
  | false => rfl
  | true =>
    exfalso
    have hdrop : (a ++ (sep ++ r)).drop (a.length + sep.length + p) = r.drop p := by
      rw [← drop_add_eq (a ++ (sep ++ r)) (a.length + sep.length) p]
      rw [← drop_add_eq (a ++ (sep ++ r)) a.length sep.length]
      rw [drop_append_len a (sep ++ r)]
      rw [drop_append_len sep r]
    have hocc : sep.isPrefixOf ((a ++ (sep ++ r)).drop (a.length + sep.length + p)) = true := by
      rw [hdrop]; exact hb
    have hle : a.length + sep.length + p ≤ (a ++ (sep ++ r)).length :=
      isPrefixOf_drop_le sep _ _ hsep hocc
    have heq := huniq (a.length + sep.length + p) hle hocc
    have hsl : 1 ≤ sep.length := by
      cases sep with
      | nil => exact absurd rfl hsep
      | cons x y => simp
    omega

/-- C5 (counterexample): on the reply `"```pythonx`````python"` the claim's
premises hold - the reply contains a fenced block tagged `"```python"`
(opening tag at the start, no fence occurrence inside the content `"x"`),
and the first closing fence follows immediately after `"x"` - so the claim
demands the trimmed strictly-between text `"x"`. The code instead returns
`"x``"`, because `split("```python")` also cuts at the second, overlapping
tag occurrence inside `"`````python"`. -/
theorem extract_code_second_tag_counterexample :
    ("```pythonx`````python".data
      = ([] : List Char) ++ pythonTag ++ "x".data ++ fence ++ "``python".data) ∧
    (∀ p, p < ("x".data).length →
      fence.isPrefixOf ((("x".data ++ fence ++ "``python".data)).drop p) = false) ∧
    extract_code ("```pythonx`````python".data) = "x``".data ∧
    pyStrip ("x".data) = "x".data ∧
    ("x``".data ≠ "x".data) := by
  decide

/-- C5 (amended): the extraction branches of lines 277-281 behave as
follows. If the reply contains the designated tag exactly once and a
closing fence after it, extraction returns the text strictly between the
tag and the first subsequent fence, trimmed (with several tag occurrences
the `split`-based code can cut earlier). If the reply contains no tag but
contains an untagged fenced block, extraction returns the text strictly
between the first fence and the next one, trimmed. If the reply contains no
fence marker at all, the whole reply is returned unchanged. -/
theorem extract_code_branch_behavior :
    (∀ (raw a b c : List Char), raw = a ++ pythonTag ++ b ++ fence ++ c →
      (∀ p, p ≤ raw.length → pythonTag.isPrefixOf (raw.drop p) = true → p = a.length) →
      (∀ p, p < b.length → fence.isPrefixOf ((b ++ fence ++ c).drop p) = false) →
      extract_code raw = pyStrip b) ∧
    (∀ (raw a b c : List Char), pyContains pythonTag raw = false →
      raw = a ++ fence ++ b ++ fence ++ c →
      (∀ p, p < a.length → fence.isPrefixOf (raw.drop p) = false) →
      (∀ p, p < b.length → fence.isPrefixOf ((b ++ fence ++ c).drop p) = false) →
      extract_code raw = pyStrip b) ∧
    (∀ raw : List Char, pyContains fence raw = false → extract_code raw = raw) := by
  refine ⟨?_, ?_, ?_⟩
  · intro raw a b c h1 huniq hb
    have hassoc : raw = a ++ (pythonTag ++ (b ++ (fence ++ c))) := by
      rw [h1]; simp [List.append_assoc]
    rw [hassoc] at huniq ⊢
    have hbno : ∀ p, p < b.length →
        fence.isPrefixOf ((b ++ (fence ++ c)).drop p) = false := by
      intro p hp
      have := hb p hp
      simpa [List.append_assoc] using this
    have htagno : ∀ p, p < a.length →
        pythonTag.isPrefixOf ((a ++ (pythonTag ++ (b ++ (fence ++ c)))).drop p) = false := by
      intro p hp
      cases hcase : pythonTag.isPrefixOf ((a ++ (pythonTag ++ (b ++ (fence ++ c)))).drop p) with
      | false => rfl
      | true =>
        exfalso
        have hle := isPrefixOf_drop_le pythonTag _ p (by decide) hcase
        have := huniq p hle hcase
        omega
    have hcont : pyContains pythonTag (a ++ (pythonTag ++ (b ++ (fence ++ c)))) = true := by
      unfold pyContains
      rw [firstOcc_append a pythonTag (b ++ (fence ++ c)) (by decide) htagno]
      rfl
    have hsplit : pySplit pythonTag (a ++ (pythonTag ++ (b ++ (fence ++ c))))
        = a :: pySplit pythonTag (b ++ (fence ++ c)) :=
      pySplit_append a pythonTag (b ++ (fence ++ c)) (by decide) htagno
    have htnone : firstOcc pythonTag (b ++ (fence ++ c)) = none :=
      firstOcc_tail_none a pythonTag (b ++ (fence ++ c)) (by decide) huniq
    have hsplit2 : pySplit pythonTag (b ++ (fence ++ c)) = [b ++ (fence ++ c)] :=
      pySplit_none _ _ htnone
    have hfsplit : pySplit fence (b ++ (fence ++ c)) = b :: pySplit fence c :=
      pySplit_append b fence c (by decide) hbno
    unfold extract_code
    rw [hcont]
    simp only [if_true]
    rw [hsplit, hsplit2]
    simp only [List.getD_cons_succ, List.getD_cons_zero]
    rw [hfsplit]
    simp only [List.getD_cons_zero]
  · intro raw a b c hnotag h1 ha hb
    have hassoc : raw = a ++ (fence ++ (b ++ (fence ++ c))) := by
      rw [h1]; simp [List.append_assoc]
    rw [hassoc] at hnotag ha ⊢
    have hbno : ∀ p, p < b.length →
        fence.isPrefixOf ((b ++ (fence ++ c)).drop p) = false := by
      intro p hp
      have := hb p hp
      simpa [List.append_assoc] using this
    have hsplit : pySplit fence (a ++ (fence ++ (b ++ (fence ++ c))))
        = a :: pySplit fence (b ++ (fence ++ c)) :=
      pySplit_append a fence (b ++ (fence ++ c)) (by decide) ha
    have hfsplit : pySplit fence (b ++ (fence ++ c)) = b :: pySplit fence c :=
      pySplit_append b fence c (by decide) hbno
    have hbnone : firstOcc fence b = none := by
      apply firstOcc_eq_none
      intro p
      by_cases hp : p < b.length
      · cases hcase : fence.isPrefixOf (b.drop p) with
        | false => rfl
        | true =>
          exfalso
          have hext : fence.isPrefixOf ((b ++ (fence ++ c)).drop p) = true := by
            rw [drop_append_le b (fence ++ c) p (le_of_lt hp)]
            exact isPrefixOf_append_right fence (b.drop p) (fence ++ c) hcase
          rw [hbno p hp] at hext
          cases hext
      · push_neg at hp
        rw [List.drop_eq_nil_of_le hp]
        exact isPrefixOf_nil_false fence (by decide)
    have hbsplit : pySplit fence b = [b] := pySplit_none _ _ hbnone
    have hcontf : pyContains fence (a ++ (fence ++ (b ++ (fence ++ c)))) = true := by
      unfold pyContains
      rw [firstOcc_append a fence (b ++ (fence ++ c)) (by decide) ha]
      rfl
    unfold extract_code
    rw [hnotag]
    simp only [Bool.false_eq_true, if_false]
    rw [hcontf]
    simp only [if_true]
    rw [hsplit, hfsplit]
    simp only [List.getD_cons_succ, List.getD_cons_zero]
    rw [hbsplit]
    simp only [List.getD_cons_zero]
  · intro raw hnof
    have hnotag : pyContains pythonTag raw = false := tag_not_contained raw hnof
    unfold extract_code
    rw [hnotag, hnof]
    simp

/-- C5 (witness): the amended tagged-branch behaviour at a concrete reply
with one tagged fenced block. -/
theorem extract_code_branch_witness :
    extract_code ("here ```python print(42) ``` done".data)
      = pyStrip (" print(42) ".data) :=
  extract_code_branch_behavior.1 ("here ```python print(42) ``` done".data)
    ("here ".data) (" print(42) ".data) (" done".data)
    (by decide) (by decide) (by decide)
